import Mathlib

/-!
Verification of the INDbox v1 distance acquisition and filtering pipeline
(firmware/indbox_v1.ino, filtering variant).

The Ranging Unit converts an echo pulse duration to a raw distance (or a
no-echo sentinel), and the Distance Stabilizer turns the per-tick stream of
raw readings into a stabilized integer output via validity gating,
sample-and-hold, optional slew limiting, and exponential smoothing.

The firmware float state distFiltered is modelled over the rationals, the
single-rounding publish cast (long)(x + 0.5f) as truncation toward zero of
x + 1/2, matching the fixed-point-equivalent real arithmetic the design
prescribes.
-/

namespace INDbox

/-! ### Constants (filtering parameters of indbox_v1.ino) -/

def DIST_INVALID : Int := -1

def DIST_MIN_MM : Int := 50

def DIST_MAX_MM : Int := 2000

def DIST_EMA_ALPHA : ℚ := 0.25

def ENABLE_SLEW_LIMIT : Bool := true

def MAX_STEP_PER_SAMPLE_MM : Int := 80

def SOUND_SPEED_MM_PER_US : ℚ := 0.343

/-! ### Raw readings and the Ranging Unit -/

/-- A raw per-tick reading: either a measured distance in millimeters or the
no-echo outcome (the firmware encodes the latter as DIST_INVALID = -1). -/
inductive RawRange where
  | Distance (mm : Int)
  | NoEcho
deriving DecidableEq

/-- The long value the firmware passes around for a raw reading. -/
def RawRange.toLong : RawRange → Int
  | .Distance mm => mm
  | .NoEcho => DIST_INVALID

/-- C-style cast of a real value to long: truncation toward zero. -/
def truncToLong (x : ℚ) : Int :=
  if 0 ≤ x then ⌊x⌋ else ⌈x⌉

/-- The publish rounding (long)(x + 0.5f) used by the firmware. -/
def roundMm (x : ℚ) : Int :=
  truncToLong (x + 1/2)

/-- readUltrasonicMillimetersRaw, as a function of the measured echo pulse
duration in microseconds (pulseIn returns 0 on timeout). -/
def readUltrasonicMillimetersRaw (duration_us : ℕ) : Int :=
  if duration_us = 0 then
    DIST_INVALID
  else
    truncToLong ((duration_us : ℚ) * SOUND_SPEED_MM_PER_US * (1/2) + 1/2)

/-- The Ranging Unit measure operation, tagging the raw long reading. -/
def measureRange (duration_us : ℕ) : RawRange :=
  if duration_us = 0 then
    .NoEcho
  else
    .Distance (readUltrasonicMillimetersRaw duration_us)

/-! ### The Distance Stabilizer -/

/-- isDistanceValid of indbox_v1.ino. -/
def isDistanceValid (mm : Int) : Bool :=
  decide (DIST_MIN_MM ≤ mm ∧ mm ≤ DIST_MAX_MM)

/-- clampStep of indbox_v1.ino. -/
def clampStep (current target maxStep : Int) : Int :=
  let delta := target - current
  if maxStep < delta then current + maxStep
  else if delta < -maxStep then current - maxStep
  else target

/-- The persistent filter state of the loop in indbox_v1.ino. -/
structure StabilizerState where
  hasValidDistance : Bool
  lastGoodMm : Int
  distFiltered : ℚ
deriving DecidableEq

/-- The state at process start. -/
def initState : StabilizerState :=
  { hasValidDistance := false, lastGoodMm := 0, distFiltered := 0 }

/-- One tick of the distance pipeline of loop in indbox_v1.ino: validity
gating and sample-and-hold, initialization seeding, target selection, slew
limiting, EMA smoothing, and the published integer output. -/
def update (raw : RawRange) (s : StabilizerState) : Int × StabilizerState :=
  let rawMm := raw.toLong
  let s1 : StabilizerState :=
    if isDistanceValid rawMm then
      if s.hasValidDistance then
        { s with lastGoodMm := rawMm }
      else
        { hasValidDistance := true, lastGoodMm := rawMm,
          distFiltered := (rawMm : ℚ) }
    else s
  let target0 : Int := if s1.hasValidDistance then s1.lastGoodMm else 0
  let targetMm : Int :=
    if ENABLE_SLEW_LIMIT && s1.hasValidDistance then
      clampStep (roundMm s1.distFiltered) target0 MAX_STEP_PER_SAMPLE_MM
    else target0
  let s2 : StabilizerState :=
    if s1.hasValidDistance then
      { s1 with distFiltered :=
          s1.distFiltered + DIST_EMA_ALPHA * ((targetMm : ℚ) - s1.distFiltered) }
    else s1
  let outMm : Int := if s2.hasValidDistance then roundMm s2.distFiltered else 0
  (outMm, s2)

/-- The state after a finite input sequence. -/
def runState (s : StabilizerState) : List RawRange → StabilizerState
  | [] => s
  | r :: rs => runState (update r s).2 rs

/-- The emitted dist_mm stream of a finite input sequence. -/
def runOutputs (s : StabilizerState) : List RawRange → List Int
  | [] => []
  | r :: rs => (update r s).1 :: runOutputs (update r s).2 rs

/-- The emitted dist_mm stream from the process start state. -/
def outputs (l : List RawRange) : List Int :=
  runOutputs initState l

/-- The state after processing the first k inputs, from process start. -/
def stateAfter (l : List RawRange) (k : ℕ) : StabilizerState :=
  runState initState (l.take k)

/-- Reachability invariant of the stabilizer state: before initialization
both fields hold their zero defaults, and after initialization both the held
reading and the smoothed value stay inside the validity interval. -/
def Inv (s : StabilizerState) : Prop :=
  (s.hasValidDistance = false → s.lastGoodMm = 0 ∧ s.distFiltered = 0) ∧
  (s.hasValidDistance = true →
    DIST_MIN_MM ≤ s.lastGoodMm ∧ s.lastGoodMm ≤ DIST_MAX_MM ∧
    (DIST_MIN_MM : ℚ) ≤ s.distFiltered ∧ s.distFiltered ≤ (DIST_MAX_MM : ℚ))

instance (s : StabilizerState) : Decidable (Inv s) := by
  unfold Inv; infer_instance

/-- The post-initialization per-tick smoothing transform: slew-limited
target followed by exponential smoothing, as performed by loop once
hasValidDistance holds. -/
def emaStep (target : Int) (d : ℚ) : ℚ :=
  d + DIST_EMA_ALPHA * ((clampStep (roundMm d) target MAX_STEP_PER_SAMPLE_MM : ℚ) - d)

/-- The target selected by loop for the smoothing stage: the fresh reading
when it passes gating, otherwise the held lastGoodMm. -/
def heldTarget (raw : RawRange) (s : StabilizerState) : Int :=
  if isDistanceValid raw.toLong then raw.toLong else s.lastGoodMm

/-! ### Basic facts about the publish rounding -/

lemma alpha_val : DIST_EMA_ALPHA = 1/4 := by norm_num [DIST_EMA_ALPHA]

lemma roundMm_eq_floor (x : ℚ) (hx : 0 ≤ x) : roundMm x = ⌊x + 1/2⌋ := by
  unfold roundMm truncToLong
  rw [if_pos (by linarith)]

lemma roundMm_cast_le (x : ℚ) (hx : 0 ≤ x) : (roundMm x : ℚ) ≤ x + 1/2 := by
  rw [roundMm_eq_floor x hx]
  exact Int.floor_le _

lemma lt_roundMm_cast (x : ℚ) (hx : 0 ≤ x) : x - 1/2 < (roundMm x : ℚ) := by
  rw [roundMm_eq_floor x hx]
  have h := Int.sub_one_lt_floor (x + 1/2)
  linarith

lemma roundMm_intCast (n : Int) (hn : 0 ≤ n) : roundMm (n : ℚ) = n := by
  have h0 : (0 : ℚ) ≤ (n : ℚ) := by exact_mod_cast hn
  rw [roundMm_eq_floor _ h0]
  apply Int.floor_eq_iff.mpr
  constructor
  · linarith
  · linarith

lemma roundMm_mono (a b : ℚ) (ha : 0 ≤ a) (h : a ≤ b) : roundMm a ≤ roundMm b := by
  rw [roundMm_eq_floor a ha, roundMm_eq_floor b (le_trans ha h)]
  exact Int.floor_mono (by linarith)

lemma le_roundMm (n : Int) (x : ℚ) (hx : 0 ≤ x) (h : (n : ℚ) ≤ x) : n ≤ roundMm x := by
  have h1 := lt_roundMm_cast x hx
  by_contra hc
  push_neg at hc
  have h2 : roundMm x + 1 ≤ n := by omega
  have h3 : ((roundMm x : ℤ) : ℚ) + 1 ≤ (n : ℚ) := by exact_mod_cast h2
  linarith

lemma roundMm_le (n : Int) (x : ℚ) (hx : 0 ≤ x) (h : x ≤ (n : ℚ)) : roundMm x ≤ n := by
  have h1 := roundMm_cast_le x hx
  by_contra hc
  push_neg at hc
  have h2 : n + 1 ≤ roundMm x := by omega
  have h3 : ((n : ℤ) : ℚ) + 1 ≤ (roundMm x : ℚ) := by exact_mod_cast h2
  linarith

/-! ### Basic facts about the slew clamp -/

lemma clampStep_abs_le (c t m : Int) (hm : 0 ≤ m) : |clampStep c t m - c| ≤ m := by
  simp only [clampStep]
  split_ifs with h1 h2 <;> rw [abs_le] <;> constructor <;> omega

lemma clampStep_self (c m : Int) (hm : 0 ≤ m) : clampStep c c m = c := by
  simp only [clampStep]
  split_ifs <;> omega

lemma clampStep_ge_fifty (c t : Int) (hc : 50 ≤ c) (ht : 50 ≤ t) :
    50 ≤ clampStep c t MAX_STEP_PER_SAMPLE_MM := by
  simp only [clampStep, MAX_STEP_PER_SAMPLE_MM]
  split_ifs <;> omega

/-! ### The smoothing step: approach, range, slew, geometric-rate facts -/

lemma emaStep_core (V : Int) (d : ℚ) (hd : 0 ≤ d) :
    (d ≤ (V : ℚ) → d ≤ emaStep V d ∧ emaStep V d ≤ (V : ℚ) ∧
      (1 ≤ (V : ℚ) - d → (V : ℚ) - emaStep V d ≤ ((V : ℚ) - d) - 1/4)) ∧
    ((V : ℚ) ≤ d → (V : ℚ) ≤ emaStep V d ∧ emaStep V d ≤ d ∧
      (1 ≤ d - (V : ℚ) → emaStep V d - (V : ℚ) ≤ (d - (V : ℚ)) - 1/4)) := by
  have hc1 : (roundMm d : ℚ) ≤ d + 1/2 := roundMm_cast_le d hd
  have hc2 : d - 1/2 < (roundMm d : ℚ) := lt_roundMm_cast d hd
  unfold emaStep
  rw [alpha_val]
  simp only [clampStep, MAX_STEP_PER_SAMPLE_MM]
  split_ifs with h1 h2
  · -- slew clamps upward: 80 < target - current
    have h1' : roundMm d + 81 ≤ V := by omega
    have h1q : (roundMm d : ℚ) + 81 ≤ (V : ℚ) := by exact_mod_cast h1'
    push_cast
    constructor
    · intro hdV
      refine ⟨by linarith, by linarith, fun _ => by linarith⟩
    · intro hdV
      exfalso; linarith
  · -- slew clamps downward: target - current < -80
    have h2' : V + 81 ≤ roundMm d := by omega
    have h2q : (V : ℚ) + 81 ≤ (roundMm d : ℚ) := by exact_mod_cast h2'
    push_cast
    constructor
    · intro hdV
      exfalso; linarith
    · intro hdV
      refine ⟨by linarith, by linarith, fun _ => by linarith⟩
  · -- no clamp: target within the slew window
    constructor
    · intro hdV
      refine ⟨by linarith, by linarith, fun h => by linarith⟩
    · intro hdV
      refine ⟨by linarith, by linarith, fun h => by linarith⟩

lemma emaStep_approach (V : Int) (hV : 0 ≤ V) (d : ℚ) (hd : 0 ≤ d) :
    0 ≤ emaStep V d ∧ |emaStep V d - (V : ℚ)| ≤ |d - (V : ℚ)| ∧
      (1 ≤ |d - (V : ℚ)| → |emaStep V d - (V : ℚ)| ≤ |d - (V : ℚ)| - 1/4) := by
  have hVq : (0 : ℚ) ≤ (V : ℚ) := by exact_mod_cast hV
  obtain ⟨hle, hge⟩ := emaStep_core V d hd
  rcases le_total d (V : ℚ) with h | h
  · obtain ⟨ha, hb, hdec⟩ := hle h
    rw [abs_of_nonpos (by linarith : emaStep V d - (V : ℚ) ≤ 0),
        abs_of_nonpos (by linarith : d - (V : ℚ) ≤ 0)]
    exact ⟨by linarith, by linarith, fun hg => by have := hdec (by linarith); linarith⟩
  · obtain ⟨ha, hb, hdec⟩ := hge h
    rw [abs_of_nonneg (by linarith : (0 : ℚ) ≤ emaStep V d - (V : ℚ)),
        abs_of_nonneg (by linarith : (0 : ℚ) ≤ d - (V : ℚ))]
    exact ⟨by linarith, by linarith, fun hg => by have := hdec (by linarith); linarith⟩

lemma emaStep_mem_range (V : Int) (hV1 : 50 ≤ V) (hV2 : V ≤ 2000) (d : ℚ)
    (hd1 : 50 ≤ d) (hd2 : d ≤ 2000) :
    50 ≤ emaStep V d ∧ emaStep V d ≤ 2000 := by
  have hV1q : (50 : ℚ) ≤ (V : ℚ) := by exact_mod_cast hV1
  have hV2q : (V : ℚ) ≤ 2000 := by exact_mod_cast hV2
  obtain ⟨hle, hge⟩ := emaStep_core V d (by linarith)
  rcases le_total d (V : ℚ) with h | h
  · obtain ⟨ha, hb, -⟩ := hle h
    exact ⟨by linarith, by linarith⟩
  · obtain ⟨ha, hb, -⟩ := hge h
    exact ⟨by linarith, by linarith⟩

lemma emaStep_between_target (V : Int) (d : ℚ) :
    min d ((clampStep (roundMm d) V MAX_STEP_PER_SAMPLE_MM : ℤ) : ℚ) ≤ emaStep V d ∧
    emaStep V d ≤ max d ((clampStep (roundMm d) V MAX_STEP_PER_SAMPLE_MM : ℤ) : ℚ) := by
  unfold emaStep
  rw [alpha_val]
  rcases le_total d ((clampStep (roundMm d) V MAX_STEP_PER_SAMPLE_MM : ℤ) : ℚ) with h | h
  · rw [min_eq_left h, max_eq_right h]
    exact ⟨by linarith, by linarith⟩
  · rw [min_eq_right h, max_eq_left h]
    exact ⟨by linarith, by linarith⟩

lemma emaStep_geometric (V : Int) (d : ℚ)
    (h : |V - roundMm d| ≤ MAX_STEP_PER_SAMPLE_MM) :
    emaStep V d - (V : ℚ) = (1 - DIST_EMA_ALPHA) * (d - (V : ℚ)) := by
  have h1 : clampStep (roundMm d) V MAX_STEP_PER_SAMPLE_MM = V := by
    simp only [clampStep, MAX_STEP_PER_SAMPLE_MM]
    rw [abs_le] at h
    simp only [MAX_STEP_PER_SAMPLE_MM] at h
    split_ifs <;> omega
  unfold emaStep
  rw [h1, alpha_val]
  ring

lemma roundMm_emaStep_close (V : Int) (hV : 50 ≤ V) (d : ℚ) (hd : 50 ≤ d) :
    |roundMm (emaStep V d) - roundMm d| ≤ MAX_STEP_PER_SAMPLE_MM := by
  have hd0 : (0 : ℚ) ≤ d := by linarith
  have hc : 50 ≤ roundMm d := le_roundMm 50 d hd0 (by push_cast; linarith)
  have ht50 : 50 ≤ clampStep (roundMm d) V MAX_STEP_PER_SAMPLE_MM :=
    clampStep_ge_fifty _ _ hc hV
  have ht50q : (50 : ℚ) ≤ ((clampStep (roundMm d) V MAX_STEP_PER_SAMPLE_MM : ℤ) : ℚ) := by
    exact_mod_cast ht50
  have habs : |clampStep (roundMm d) V MAX_STEP_PER_SAMPLE_MM - roundMm d| ≤
      MAX_STEP_PER_SAMPLE_MM :=
    clampStep_abs_le _ _ _ (by norm_num [MAX_STEP_PER_SAMPLE_MM])
  obtain ⟨hb1, hb2⟩ := emaStep_between_target V d
  rw [abs_le] at habs ⊢
  rcases le_total d ((clampStep (roundMm d) V MAX_STEP_PER_SAMPLE_MM : ℤ) : ℚ) with h | h
  · have he1 : d ≤ emaStep V d := le_trans (by rw [min_eq_left h]) hb1
    have he2 : emaStep V d ≤ ((clampStep (roundMm d) V MAX_STEP_PER_SAMPLE_MM : ℤ) : ℚ) :=
      le_trans hb2 (by rw [max_eq_right h])
    have r1 : roundMm d ≤ roundMm (emaStep V d) := roundMm_mono _ _ hd0 he1
    have r2 : roundMm (emaStep V d) ≤ clampStep (roundMm d) V MAX_STEP_PER_SAMPLE_MM := by
      have := roundMm_mono _ _ (by linarith) he2
      rwa [roundMm_intCast _ (by omega)] at this
    omega
  · have he1 : ((clampStep (roundMm d) V MAX_STEP_PER_SAMPLE_MM : ℤ) : ℚ) ≤ emaStep V d :=
      le_trans (by rw [min_eq_right h]) hb1
    have he2 : emaStep V d ≤ d := le_trans hb2 (by rw [max_eq_left h])
    have r1 : clampStep (roundMm d) V MAX_STEP_PER_SAMPLE_MM ≤ roundMm (emaStep V d) := by
      have := roundMm_mono _ _ (by linarith) he1
      rwa [roundMm_intCast _ (by omega)] at this
    have r2 : roundMm (emaStep V d) ≤ roundMm d := roundMm_mono _ _ (by linarith) he2
    omega

/-! ### Shape of the update transform -/

lemma isDistanceValid_iff (mm : Int) :
    isDistanceValid mm = true ↔ 50 ≤ mm ∧ mm ≤ 2000 := by
  simp [isDistanceValid, DIST_MIN_MM, DIST_MAX_MM]

lemma noEcho_invalid : isDistanceValid RawRange.NoEcho.toLong = false := by
  simp [RawRange.toLong, isDistanceValid, DIST_INVALID, DIST_MIN_MM, DIST_MAX_MM]

lemma update_init (s : StabilizerState) (h : s.hasValidDistance = true)
    (raw : RawRange) :
    update raw s = (roundMm (emaStep (heldTarget raw s) s.distFiltered),
      { hasValidDistance := true, lastGoodMm := heldTarget raw s,
        distFiltered := emaStep (heldTarget raw s) s.distFiltered }) := by
  cases s with
  | mk hv lg d =>
    simp only at h
    subst h
    by_cases hval : isDistanceValid (raw.toLong) <;>
      simp [update, emaStep, heldTarget, ENABLE_SLEW_LIMIT, hval]

lemma update_uninit_invalid (s : StabilizerState) (h : s.hasValidDistance = false)
    (raw : RawRange) (hv : isDistanceValid raw.toLong = false) :
    update raw s = (0, s) := by
  simp [update, hv, h]

lemma update_uninit_valid (s : StabilizerState) (h : s.hasValidDistance = false)
    (v : Int) (hv : isDistanceValid v = true) :
    update (.Distance v) s = (v, ⟨true, v, (v : ℚ)⟩) := by
  have hv' : 50 ≤ v ∧ v ≤ 2000 := (isDistanceValid_iff v).mp hv
  have h0 : (0 : ℤ) ≤ v := by omega
  have hround : roundMm ((v : ℤ) : ℚ) = v := roundMm_intCast v h0
  have hclamp : clampStep v v MAX_STEP_PER_SAMPLE_MM = v :=
    clampStep_self v _ (by norm_num [MAX_STEP_PER_SAMPLE_MM])
  simp [update, RawRange.toLong, hv, h, ENABLE_SLEW_LIMIT, hround, hclamp]

lemma update_fst_eq (s : StabilizerState) (raw : RawRange) :
    (update raw s).1 =
      if (update raw s).2.hasValidDistance then
        roundMm (update raw s).2.distFiltered
      else 0 := rfl

/-! ### The reachability invariant is preserved -/

lemma Inv_initState : Inv initState := by decide

lemma heldTarget_range (s : StabilizerState) (raw : RawRange)
    (hlg : 50 ≤ s.lastGoodMm ∧ s.lastGoodMm ≤ 2000) :
    50 ≤ heldTarget raw s ∧ heldTarget raw s ≤ 2000 := by
  unfold heldTarget
  split_ifs with h
  · exact (isDistanceValid_iff _).mp h
  · exact hlg

lemma Inv_update (s : StabilizerState) (hs : Inv s) (raw : RawRange) :
    Inv (update raw s).2 := by
  rcases hb : s.hasValidDistance with _ | _
  · by_cases hv : isDistanceValid raw.toLong = true
    · cases raw with
      | NoEcho => rw [noEcho_invalid] at hv; exact absurd hv (by simp)
      | Distance v =>
        rw [update_uninit_valid s hb v (by simpa [RawRange.toLong] using hv)]
        have hv' : 50 ≤ v ∧ v ≤ 2000 := (isDistanceValid_iff v).mp
          (by simpa [RawRange.toLong] using hv)
        refine ⟨fun hc => by simp at hc, fun _ => ?_⟩
        refine ⟨?_, ?_, ?_, ?_⟩ <;>
          simp only [DIST_MIN_MM, DIST_MAX_MM] <;>
          first
          | omega
          | (exact_mod_cast hv'.1)
          | (exact_mod_cast hv'.2)
    · rw [update_uninit_invalid s hb raw (by simpa using hv)]
      exact hs
  · rw [update_init s hb raw]
    have hlg := hs.2 hb
    have hlg' : 50 ≤ s.lastGoodMm ∧ s.lastGoodMm ≤ 2000 := by
      refine ⟨?_, ?_⟩ <;> [simpa [DIST_MIN_MM] using hlg.1; simpa [DIST_MAX_MM] using hlg.2.1]
    have htgt := heldTarget_range s raw hlg'
    have hd1 : (50 : ℚ) ≤ s.distFiltered := by
      have := hlg.2.2.1; simpa [DIST_MIN_MM] using this
    have hd2 : s.distFiltered ≤ (2000 : ℚ) := by
      have := hlg.2.2.2; simpa [DIST_MAX_MM] using this
    have hrange := emaStep_mem_range (heldTarget raw s) htgt.1 htgt.2
      s.distFiltered hd1 hd2
    refine ⟨fun hc => by simp at hc, fun _ => ?_⟩
    refine ⟨?_, ?_, ?_, ?_⟩ <;> simp only [DIST_MIN_MM, DIST_MAX_MM]
    · exact htgt.1
    · exact htgt.2
    · exact_mod_cast hrange.1
    · exact_mod_cast hrange.2

/-! ### Runs of the stabilizer -/

lemma runState_nil (s : StabilizerState) : runState s [] = s := rfl

lemma runState_cons (s : StabilizerState) (r : RawRange) (rs : List RawRange) :
    runState s (r :: rs) = runState (update r s).2 rs := rfl

lemma runState_append (s : StabilizerState) (l1 l2 : List RawRange) :
    runState s (l1 ++ l2) = runState (runState s l1) l2 := by
  induction l1 generalizing s with
  | nil => rfl
  | cons r rs ih => simp [runState_cons, ih]

lemma Inv_runState (s : StabilizerState) (hs : Inv s) (l : List RawRange) :
    Inv (runState s l) := by
  induction l generalizing s with
  | nil => exact hs
  | cons r rs ih => exact ih _ (Inv_update s hs r)

lemma Inv_stateAfter (l : List RawRange) (k : ℕ) : Inv (stateAfter l k) :=
  Inv_runState initState Inv_initState _

lemma hasValid_update (s : StabilizerState) (raw : RawRange)
    (h : s.hasValidDistance = true) :
    (update raw s).2.hasValidDistance = true := by
  rw [update_init s h raw]

lemma hasValid_runState (s : StabilizerState) (l : List RawRange)
    (h : s.hasValidDistance = true) :
    (runState s l).hasValidDistance = true := by
  induction l generalizing s with
  | nil => exact h
  | cons r rs ih => exact ih _ (hasValid_update s r h)

lemma runOutputs_getD (l : List RawRange) :
    ∀ (i : ℕ) (s : StabilizerState), i < l.length →
      (runOutputs s l).getD i 0 =
        (update (l.getD i .NoEcho) (runState s (l.take i))).1 := by
  induction l with
  | nil => intro i s h; simp at h
  | cons r rs ih =>
    intro i s h
    cases i with
    | zero => simp [runOutputs, runState]
    | succ j =>
      simp only [runOutputs, List.getD_cons_succ, List.take_succ_cons, runState_cons]
      exact ih j _ (by simpa using h)

lemma runState_take_succ (l : List RawRange) :
    ∀ (i : ℕ) (s : StabilizerState), i < l.length →
      runState s (l.take (i+1)) =
        (update (l.getD i .NoEcho) (runState s (l.take i))).2 := by
  induction l with
  | nil => intro i s h; simp at h
  | cons r rs ih =>
    intro i s h
    cases i with
    | zero => simp [runState]
    | succ j =>
      simp only [List.getD_cons_succ, List.take_succ_cons, runState_cons]
      exact ih j _ (by simpa using h)

lemma stateAfter_succ (l : List RawRange) (i : ℕ) (h : i < l.length) :
    stateAfter l (i+1) = (update (l.getD i .NoEcho) (stateAfter l i)).2 :=
  runState_take_succ l i initState h

/-! ### Output bounds -/

lemma update_fst_cases (s : StabilizerState) (raw : RawRange) (hs : Inv s) :
    (update raw s).1 = 0 ∨
      (50 ≤ (update raw s).1 ∧ (update raw s).1 ≤ 2000) := by
  by_cases h : (update raw s).2.hasValidDistance = true
  · right
    have hInv := Inv_update s hs raw
    have hd := hInv.2 h
    have hd1 : (50 : ℚ) ≤ (update raw s).2.distFiltered := by
      have := hd.2.2.1; simpa [DIST_MIN_MM] using this
    have hd2 : (update raw s).2.distFiltered ≤ (2000 : ℚ) := by
      have := hd.2.2.2; simpa [DIST_MAX_MM] using this
    rw [update_fst_eq, if_pos h]
    exact ⟨le_roundMm 50 _ (by linarith) (by push_cast; linarith),
           roundMm_le 2000 _ (by linarith) (by push_cast; linarith)⟩
  · left
    rw [update_fst_eq, if_neg h]

lemma update_fst_of_uninit (s : StabilizerState) (raw : RawRange)
    (h : (update raw s).2.hasValidDistance = false) :
    (update raw s).1 = 0 := by
  rw [update_fst_eq, if_neg (by simp [h])]

/-! ### Sample-and-hold across NoEcho runs -/

lemma noecho_hold (R : Int) (hR : 0 ≤ R) :
    ∀ (k : ℕ) (s : StabilizerState), s.hasValidDistance = true →
      s.lastGoodMm = R → 0 ≤ s.distFiltered →
      (runState s (List.replicate k .NoEcho)).hasValidDistance = true ∧
      (runState s (List.replicate k .NoEcho)).lastGoodMm = R ∧
      0 ≤ (runState s (List.replicate k .NoEcho)).distFiltered := by
  intro k
  induction k with
  | zero => intro s h1 h2 h3; exact ⟨h1, h2, h3⟩
  | succ n ih =>
    intro s h1 h2 h3
    rw [List.replicate_succ, runState_cons]
    have hupd := update_init s h1 .NoEcho
    have htgt : heldTarget .NoEcho s = R := by
      simp [heldTarget, noEcho_invalid, h2]
    have h4 := (emaStep_approach R hR s.distFiltered h3).1
    exact ih _ (by rw [hupd]) (by rw [hupd]; simpa using htgt)
      (by rw [hupd]; simpa [htgt] using h4)

/-! ### Convergence under a constant valid input -/

lemma constant_input_gap (V : Int) (hVv : isDistanceValid V = true) :
    ∀ (n : ℕ) (s : StabilizerState) (g : ℚ), s.hasValidDistance = true →
      0 ≤ s.distFiltered → |s.distFiltered - (V : ℚ)| ≤ g →
      |(runState s (List.replicate n (.Distance V))).distFiltered - (V : ℚ)| ≤
        max (g - (n : ℚ)/4) 1 := by
  have hV : (0 : ℤ) ≤ V := by
    have := (isDistanceValid_iff V).mp hVv; omega
  intro n
  induction n with
  | zero =>
    intro s g h1 h2 h3
    simp only [List.replicate, runState_nil]
    refine le_trans h3 ?_
    have heq : g - ((0 : ℕ) : ℚ)/4 = g := by push_cast; ring
    rw [heq]
    exact le_max_left _ _
  | succ n ih =>
    intro s g h1 h2 h3
    rw [List.replicate_succ, runState_cons, update_init s h1 (.Distance V)]
    have htgt : heldTarget (.Distance V) s = V := by
      simp [heldTarget, RawRange.toLong, hVv]
    rw [htgt]
    obtain ⟨h0, hmono, hdec⟩ := emaStep_approach V hV s.distFiltered h2
    have hg' : |emaStep V s.distFiltered - (V : ℚ)| ≤ max (g - 1/4) 1 := by
      rcases le_or_lt 1 |s.distFiltered - (V : ℚ)| with hcase | hcase
      · exact le_trans (hdec hcase) (le_max_of_le_left (by linarith))
      · exact le_max_of_le_right (by linarith)
    have hstep := ih ⟨true, V, emaStep V s.distFiltered⟩ (max (g - 1/4) 1)
      rfl h0 hg'
    refine le_trans hstep ?_
    apply max_le ?_ (le_max_right _ _)
    rcases le_total (g - 1/4) 1 with hcase | hcase
    · rw [max_eq_right hcase]
      refine le_trans ?_ (le_max_right _ _)
      have : (0 : ℚ) ≤ (n : ℚ)/4 := by positivity
      linarith
    · rw [max_eq_left hcase]
      refine le_trans ?_ (le_max_left _ _)
      push_cast
      linarith

/-! ### The claims -/

/-- C1: from the initial state with the default parameters, the input
sequence Distance 500, NoEcho, Distance 1800 emits 500, 500, 520; on tick 2
the held reading stays 500, and on tick 3 the slew-clamped target is 580 and
the smoothed value becomes exactly 520. -/
theorem C1_end_to_end_example :
    outputs [.Distance 500, .NoEcho, .Distance 1800] = [500, 500, 520] ∧
    (stateAfter [.Distance 500, .NoEcho, .Distance 1800] 2).lastGoodMm = 500 ∧
    clampStep
      (roundMm (stateAfter [.Distance 500, .NoEcho, .Distance 1800] 2).distFiltered)
      1800 MAX_STEP_PER_SAMPLE_MM = 580 ∧
    (stateAfter [.Distance 500, .NoEcho, .Distance 1800] 3).distFiltered = 520 := by
  norm_num [outputs, runOutputs, runState, stateAfter, update, initState,
    isDistanceValid, DIST_MIN_MM, DIST_MAX_MM, RawRange.toLong, DIST_INVALID,
    ENABLE_SLEW_LIMIT, MAX_STEP_PER_SAMPLE_MM, DIST_EMA_ALPHA, clampStep,
    roundMm, truncToLong]

/-- C2: for every input sequence from the initial state, every emitted
dist_mm is a nonnegative integer and never the sentinel -1, and it equals
the placeholder 0 on every tick on which the filter is still uninitialized. -/
theorem C2_no_sentinel_leakage (l : List RawRange) (i : ℕ) (h : i < l.length) :
    0 ≤ (outputs l).getD i 0 ∧ (outputs l).getD i 0 ≠ -1 ∧
      ((stateAfter l (i+1)).hasValidDistance = false → (outputs l).getD i 0 = 0) := by
  have hout : (outputs l).getD i 0 =
      (update (l.getD i .NoEcho) (stateAfter l i)).1 :=
    runOutputs_getD l i initState h
  have hcases := update_fst_cases (stateAfter l i) (l.getD i .NoEcho)
    (Inv_stateAfter l i)
  have hsucc := stateAfter_succ l i h
  refine ⟨?_, ?_, ?_⟩
  · rw [hout]; rcases hcases with h0 | ⟨ha, hb⟩ <;> omega
  · rw [hout]; rcases hcases with h0 | ⟨ha, hb⟩ <;> omega
  · intro hun
    rw [hout]
    exact update_fst_of_uninit _ _ (by rw [← hsucc]; exact hun)

/-- Witness for C2 at the singleton input sequence Distance 500. -/
theorem C2_no_sentinel_leakage_witness :
    0 < ([RawRange.Distance 500] : List RawRange).length ∧
      (0 ≤ (outputs [RawRange.Distance 500]).getD 0 0 ∧
       (outputs [RawRange.Distance 500]).getD 0 0 ≠ -1 ∧
       ((stateAfter [RawRange.Distance 500] 1).hasValidDistance = false →
         (outputs [RawRange.Distance 500]).getD 0 0 = 0)) :=
  ⟨by decide, C2_no_sentinel_leakage [RawRange.Distance 500] 0 (by decide)⟩

/-- C3: a rejected reading (NoEcho, or a Distance outside the gate) leaves
lastAccepted unchanged and cannot initialize the filter; consequently, after
an accepted valid reading R, any run of consecutive NoEcho ticks holds
lastAccepted at R while the smoothed value moves toward R each tick. -/
theorem C3_gating_and_hold :
    (∀ (s : StabilizerState) (raw : RawRange), isDistanceValid raw.toLong = false →
      (update raw s).2.lastGoodMm = s.lastGoodMm ∧
        (s.hasValidDistance = false → (update raw s).2.hasValidDistance = false)) ∧
    (∀ (s : StabilizerState) (R : Int), Inv s → isDistanceValid R = true →
      ∀ k : ℕ,
        (runState (update (.Distance R) s).2
          (List.replicate k .NoEcho)).lastGoodMm = R ∧
        |(runState (update (.Distance R) s).2
            (List.replicate (k+1) .NoEcho)).distFiltered - (R : ℚ)| ≤
          |(runState (update (.Distance R) s).2
            (List.replicate k .NoEcho)).distFiltered - (R : ℚ)|) := by
  constructor
  · intro s raw hv
    rcases hb : s.hasValidDistance with _ | _
    · rw [update_uninit_invalid s hb raw hv]
      exact ⟨rfl, fun _ => hb⟩
    · rw [update_init s hb raw]
      exact ⟨by simp [heldTarget, hv], fun hc => absurd hc (by simp [hb])⟩
  · intro s R hs hRv k
    have hR : (0 : ℤ) ≤ R := by
      have := (isDistanceValid_iff R).mp hRv; omega
    have hstart : (update (.Distance R) s).2.hasValidDistance = true ∧
        (update (.Distance R) s).2.lastGoodMm = R ∧
        0 ≤ (update (.Distance R) s).2.distFiltered := by
      rcases hb : s.hasValidDistance with _ | _
      · rw [update_uninit_valid s hb R hRv]
        refine ⟨rfl, rfl, ?_⟩
        show (0 : ℚ) ≤ ((R : ℤ) : ℚ)
        exact_mod_cast hR
      · rw [update_init s hb (.Distance R)]
        have htgt : heldTarget (.Distance R) s = R := by
          simp [heldTarget, RawRange.toLong, hRv]
        have hd0 : (0 : ℚ) ≤ s.distFiltered := by
          have := (hs.2 hb).2.2.1
          simp only [DIST_MIN_MM] at this
          push_cast at this
          linarith
        refine ⟨rfl, by simpa using htgt, ?_⟩
        simpa [htgt] using (emaStep_approach R hR s.distFiltered hd0).1
    obtain ⟨hs1, hs2, hs3⟩ := hstart
    have hk := noecho_hold R hR k _ hs1 hs2 hs3
    refine ⟨hk.2.1, ?_⟩
    have hrw : runState (update (.Distance R) s).2 (List.replicate (k+1) .NoEcho) =
        (update .NoEcho
          (runState (update (.Distance R) s).2 (List.replicate k .NoEcho))).2 := by
      rw [List.replicate_succ', runState_append]
      rfl
    have htgt : heldTarget .NoEcho
        (runState (update (.Distance R) s).2 (List.replicate k .NoEcho)) = R := by
      simp [heldTarget, noEcho_invalid, hk.2.1]
    rw [hrw, update_init _ hk.1 .NoEcho, htgt]
    exact (emaStep_approach R hR _ hk.2.2).2.1

/-- Witness for C3: the NoEcho rejection at the initial state, and one NoEcho
tick after accepting 500. -/
theorem C3_gating_and_hold_witness :
    (isDistanceValid RawRange.NoEcho.toLong = false ∧
      (update .NoEcho initState).2.lastGoodMm = initState.lastGoodMm ∧
        (initState.hasValidDistance = false →
          (update .NoEcho initState).2.hasValidDistance = false)) ∧
    (Inv initState ∧ isDistanceValid 500 = true ∧
      ((runState (update (.Distance 500) initState).2
          (List.replicate 1 .NoEcho)).lastGoodMm = 500 ∧
       |(runState (update (.Distance 500) initState).2
           (List.replicate 2 .NoEcho)).distFiltered - (500 : ℚ)| ≤
         |(runState (update (.Distance 500) initState).2
             (List.replicate 1 .NoEcho)).distFiltered - (500 : ℚ)|)) :=
  ⟨⟨by decide, C3_gating_and_hold.1 initState .NoEcho (by decide)⟩,
   ⟨by decide, by decide, C3_gating_and_hold.2 initState 500 (by decide) (by decide) 1⟩⟩

/-- C4: with slew limiting enabled, across any tick whose starting state is
already initialized, the published rounding of the smoothed value changes by
at most MAX_STEP_PER_SAMPLE_MM = 80 millimeters. -/
theorem C4_slew_bound (l : List RawRange) (i : ℕ) (hi : i < l.length)
    (h : (stateAfter l i).hasValidDistance = true) :
    |roundMm (stateAfter l (i+1)).distFiltered -
      roundMm (stateAfter l i).distFiltered| ≤ MAX_STEP_PER_SAMPLE_MM := by
  have hlg := (Inv_stateAfter l i).2 h
  have hlg' : 50 ≤ (stateAfter l i).lastGoodMm ∧
      (stateAfter l i).lastGoodMm ≤ 2000 := by
    constructor
    · have := hlg.1; simpa [DIST_MIN_MM] using this
    · have := hlg.2.1; simpa [DIST_MAX_MM] using this
  have htgt := heldTarget_range (stateAfter l i) (l.getD i .NoEcho) hlg'
  have hd1 : (50 : ℚ) ≤ (stateAfter l i).distFiltered := by
    have := hlg.2.2.1
    simp only [DIST_MIN_MM] at this
    push_cast at this
    linarith
  rw [stateAfter_succ l i hi, update_init _ h (l.getD i .NoEcho)]
  exact roundMm_emaStep_close _ htgt.1 _ hd1

/-- Witness for C4 at the sequence Distance 500 then Distance 600, tick 2. -/
theorem C4_slew_bound_witness :
    (1 < ([RawRange.Distance 500, RawRange.Distance 600] : List RawRange).length ∧
     (stateAfter [RawRange.Distance 500, RawRange.Distance 600] 1).hasValidDistance
       = true) ∧
    |roundMm (stateAfter [RawRange.Distance 500, RawRange.Distance 600] 2).distFiltered -
      roundMm (stateAfter [RawRange.Distance 500, RawRange.Distance 600] 1).distFiltered|
      ≤ MAX_STEP_PER_SAMPLE_MM :=
  ⟨⟨by decide, by decide⟩, C4_slew_bound _ 1 (by decide) (by decide)⟩

/-- C5: the first accepted valid reading V seeds the smoothed value to
exactly V, marks the filter initialized, and that tick emits V; any tick that
leaves the filter uninitialized emits the placeholder 0. -/
theorem C5_initialization_seeding :
    (∀ (s : StabilizerState) (V : Int), s.hasValidDistance = false →
      isDistanceValid V = true →
      (update (.Distance V) s).1 = V ∧
      (update (.Distance V) s).2.distFiltered = (V : ℚ) ∧
      (update (.Distance V) s).2.hasValidDistance = true) ∧
    (∀ (s : StabilizerState) (raw : RawRange),
      (update raw s).2.hasValidDistance = false → (update raw s).1 = 0) := by
  constructor
  · intro s V h hv
    rw [update_uninit_valid s h V hv]
    exact ⟨rfl, rfl, rfl⟩
  · exact fun s raw h => update_fst_of_uninit s raw h

/-- Witness for C5 at the initial state with first reading 500. -/
theorem C5_initialization_seeding_witness :
    (initState.hasValidDistance = false ∧ isDistanceValid 500 = true ∧
      ((update (.Distance 500) initState).1 = 500 ∧
       (update (.Distance 500) initState).2.distFiltered = (500 : ℚ) ∧
       (update (.Distance 500) initState).2.hasValidDistance = true)) ∧
    ((update .NoEcho initState).2.hasValidDistance = false →
      (update .NoEcho initState).1 = 0) :=
  ⟨⟨rfl, by decide, C5_initialization_seeding.1 initState 500 rfl (by decide)⟩,
   C5_initialization_seeding.2 initState .NoEcho⟩

/-- C6: from any reachable initialized state, 7800 ticks of a constant valid
input Distance V bring the smoothed value within 1 mm of V; and once the
slew limit no longer clamps, each tick scales the remaining gap by exactly
1 - DIST_EMA_ALPHA. -/
theorem C6_convergence :
    (∀ (s : StabilizerState) (V : Int), Inv s → s.hasValidDistance = true →
      isDistanceValid V = true →
      |(runState s (List.replicate 7800 (.Distance V))).distFiltered - (V : ℚ)| ≤ 1) ∧
    (∀ (s : StabilizerState) (V : Int), s.hasValidDistance = true →
      0 ≤ s.distFiltered → isDistanceValid V = true →
      |V - roundMm s.distFiltered| ≤ MAX_STEP_PER_SAMPLE_MM →
      (update (.Distance V) s).2.distFiltered - (V : ℚ) =
        (1 - DIST_EMA_ALPHA) * (s.distFiltered - (V : ℚ))) := by
  constructor
  · intro s V hs hinit hVv
    have hd1 : (50 : ℚ) ≤ s.distFiltered := by
      have := (hs.2 hinit).2.2.1
      simp only [DIST_MIN_MM] at this
      push_cast at this
      linarith
    have hd2 : s.distFiltered ≤ (2000 : ℚ) := by
      have := (hs.2 hinit).2.2.2
      simp only [DIST_MAX_MM] at this
      push_cast at this
      linarith
    have hV' := (isDistanceValid_iff V).mp hVv
    have hVq1 : (50 : ℚ) ≤ (V : ℚ) := by exact_mod_cast hV'.1
    have hVq2 : (V : ℚ) ≤ 2000 := by exact_mod_cast hV'.2
    have hgap : |s.distFiltered - (V : ℚ)| ≤ 1950 := by
      rw [abs_le]; constructor <;> linarith
    have hrun := constant_input_gap V hVv 7800 s 1950 hinit (by linarith) hgap
    have hmax : max ((1950 : ℚ) - ((7800 : ℕ) : ℚ)/4) 1 = 1 := by
      norm_num
    rwa [hmax] at hrun
  · intro s V hinit hd hVv hclose
    have htgt : heldTarget (.Distance V) s = V := by
      simp [heldTarget, RawRange.toLong, hVv]
    rw [update_init s hinit (.Distance V), htgt]
    exact emaStep_geometric V s.distFiltered hclose

/-- Witness for C6: constant input 600 from the initialized state holding
600, and one unclamped tick from smoothed 550 toward 600. -/
theorem C6_convergence_witness :
    (Inv ⟨true, 600, 600⟩ ∧
      |(runState ⟨true, 600, 600⟩
          (List.replicate 7800 (.Distance 600))).distFiltered - (600 : ℚ)| ≤ 1) ∧
    ((update (.Distance 600) ⟨true, 550, 550⟩).2.distFiltered - (600 : ℚ) =
      (1 - DIST_EMA_ALPHA) * ((550 : ℚ) - (600 : ℚ))) :=
  ⟨⟨⟨fun h => by simp at h, fun _ => by norm_num [DIST_MIN_MM, DIST_MAX_MM]⟩,
    C6_convergence.1 ⟨true, 600, 600⟩ 600
      ⟨fun h => by simp at h, fun _ => by norm_num [DIST_MIN_MM, DIST_MAX_MM]⟩
      rfl (by decide)⟩,
   C6_convergence.2 ⟨true, 550, 550⟩ 600 rfl (by norm_num) (by decide)
     (by norm_num [roundMm, truncToLong, MAX_STEP_PER_SAMPLE_MM, abs_le])⟩

/-- C7: once the filter is initialized it stays initialized: no later input
of any kind resets hasValidDistance to false. -/
theorem C7_initialized_is_monotone :
    (∀ (s : StabilizerState) (raw : RawRange), s.hasValidDistance = true →
      (update raw s).2.hasValidDistance = true) ∧
    (∀ (l1 l2 : List RawRange), (runState initState l1).hasValidDistance = true →
      (runState initState (l1 ++ l2)).hasValidDistance = true) := by
  constructor
  · exact fun s raw h => hasValid_update s raw h
  · intro l1 l2 h
    rw [runState_append]
    exact hasValid_runState _ l2 h

/-- Witness for C7: a NoEcho tick after initialization, and extending the run
Distance 500 by a NoEcho. -/
theorem C7_initialized_is_monotone_witness :
    ((update .NoEcho ⟨true, 500, 500⟩).2.hasValidDistance = true) ∧
    ((runState initState [RawRange.Distance 500]).hasValidDistance = true ∧
      (runState initState
        ([RawRange.Distance 500] ++ [RawRange.NoEcho])).hasValidDistance = true) :=
  ⟨C7_initialized_is_monotone.1 ⟨true, 500, 500⟩ .NoEcho rfl,
   ⟨by decide, C7_initialized_is_monotone.2 [RawRange.Distance 500]
      [RawRange.NoEcho] (by decide)⟩⟩

/-- C8: the Ranging Unit reports NoEcho exactly on a zero (timed-out) echo
duration, and on any positive duration d microseconds it reports the
distance d * 0.343 / 2 rounded to the nearest millimeter. -/
theorem C8_ranging_unit (duration_us : ℕ) :
    (measureRange duration_us = .NoEcho ↔ duration_us = 0) ∧
    (0 < duration_us →
      measureRange duration_us =
        .Distance (round ((duration_us : ℚ) * 0.343 / 2))) := by
  constructor
  · constructor
    · intro h
      by_contra hne
      simp [measureRange, hne] at h
    · intro h
      simp [measureRange, h]
  · intro h
    have hne : duration_us ≠ 0 := by omega
    have hq : (0 : ℚ) ≤ (duration_us : ℚ) * SOUND_SPEED_MM_PER_US * (1/2) := by
      have h0 : (0 : ℚ) ≤ (duration_us : ℚ) := by positivity
      have h1 : (0 : ℚ) ≤ SOUND_SPEED_MM_PER_US := by norm_num [SOUND_SPEED_MM_PER_US]
      positivity
    simp only [measureRange, readUltrasonicMillimetersRaw, if_neg hne]
    congr 1
    unfold truncToLong
    rw [if_pos (by linarith), round_eq]
    congr 1
    norm_num [SOUND_SPEED_MM_PER_US]
    ring

/-- Witness for C8 at the echo duration 3000 microseconds. -/
theorem C8_ranging_unit_witness :
    0 < 3000 ∧ measureRange 3000 = .Distance (round ((3000 : ℚ) * 0.343 / 2)) :=
  ⟨by decide, (C8_ranging_unit 3000).2 (by decide)⟩

/-- C9: once initialized, the smoothed value always lies in the validity
gate interval [DIST_MIN_MM, DIST_MAX_MM] = [50, 2000], and every
post-initialization emitted output is an integer in the same interval. -/
theorem C9_smoothed_in_gate_interval :
    (∀ (l : List RawRange) (k : ℕ), (stateAfter l k).hasValidDistance = true →
      (DIST_MIN_MM : ℚ) ≤ (stateAfter l k).distFiltered ∧
        (stateAfter l k).distFiltered ≤ (DIST_MAX_MM : ℚ)) ∧
    (∀ (l : List RawRange) (i : ℕ), i < l.length →
      (stateAfter l (i+1)).hasValidDistance = true →
      DIST_MIN_MM ≤ (outputs l).getD i 0 ∧ (outputs l).getD i 0 ≤ DIST_MAX_MM) := by
  constructor
  · intro l k h
    have := (Inv_stateAfter l k).2 h
    exact ⟨this.2.2.1, this.2.2.2⟩
  · intro l i hi hinit
    have hout : (outputs l).getD i 0 =
        (update (l.getD i .NoEcho) (stateAfter l i)).1 :=
      runOutputs_getD l i initState hi
    have hsucc := stateAfter_succ l i hi
    rw [hsucc] at hinit
    have hInv := Inv_update _ (Inv_stateAfter l i) (l.getD i .NoEcho)
    have hd := hInv.2 hinit
    have hd1 : (50 : ℚ) ≤ (update (l.getD i .NoEcho) (stateAfter l i)).2.distFiltered := by
      have := hd.2.2.1
      simp only [DIST_MIN_MM] at this
      push_cast at this
      linarith
    have hd2 : (update (l.getD i .NoEcho) (stateAfter l i)).2.distFiltered ≤ (2000 : ℚ) := by
      have := hd.2.2.2
      simp only [DIST_MAX_MM] at this
      push_cast at this
      linarith
    have hfst : (update (l.getD i .NoEcho) (stateAfter l i)).1 =
        roundMm (update (l.getD i .NoEcho) (stateAfter l i)).2.distFiltered := by
      rw [update_fst_eq, if_pos hinit]
    rw [hout, hfst]
    simp only [DIST_MIN_MM, DIST_MAX_MM]
    exact ⟨le_roundMm 50 _ (by linarith) (by push_cast; linarith),
           roundMm_le 2000 _ (by linarith) (by push_cast; linarith)⟩

/-- Witness for C9 at the singleton input sequence Distance 500. -/
theorem C9_smoothed_in_gate_interval_witness :
    ((stateAfter [RawRange.Distance 500] 1).hasValidDistance = true ∧
      ((DIST_MIN_MM : ℚ) ≤ (stateAfter [RawRange.Distance 500] 1).distFiltered ∧
       (stateAfter [RawRange.Distance 500] 1).distFiltered ≤ (DIST_MAX_MM : ℚ))) ∧
    (0 < ([RawRange.Distance 500] : List RawRange).length ∧
      (DIST_MIN_MM ≤ (outputs [RawRange.Distance 500]).getD 0 0 ∧
       (outputs [RawRange.Distance 500]).getD 0 0 ≤ DIST_MAX_MM)) :=
  ⟨⟨by decide, C9_smoothed_in_gate_interval.1 [RawRange.Distance 500] 1 (by decide)⟩,
   ⟨by decide, C9_smoothed_in_gate_interval.2 [RawRange.Distance 500] 0 (by decide)
      (by decide)⟩⟩

/-- C10: slew limiting does not constrain the initialization transition: the
first accepted reading V is emitted as-is, and the sequence NoEcho then
Distance 2000 emits 0 followed by 2000, two consecutive outputs 2000 mm
apart even with slew limiting enabled. -/
theorem C10_seed_not_slew_limited :
    (∀ (s : StabilizerState) (V : Int), s.hasValidDistance = false →
      isDistanceValid V = true → (update (.Distance V) s).1 = V) ∧
    outputs [.NoEcho, .Distance 2000] = [0, 2000] := by
  constructor
  · intro s V h hv
    rw [update_uninit_valid s h V hv]
  · norm_num [outputs, runOutputs, runState, update, initState,
      isDistanceValid, DIST_MIN_MM, DIST_MAX_MM, RawRange.toLong, DIST_INVALID,
      ENABLE_SLEW_LIMIT, MAX_STEP_PER_SAMPLE_MM, DIST_EMA_ALPHA, clampStep,
      roundMm, truncToLong]

/-- Witness for C10: the first accepted reading 777 from the initial state. -/
theorem C10_seed_not_slew_limited_witness :
    (initState.hasValidDistance = false ∧ isDistanceValid 777 = true ∧
      (update (.Distance 777) initState).1 = 777) :=
  ⟨rfl, by decide, C10_seed_not_slew_limited.1 initState 777 rfl (by decide)⟩

end INDbox
